import Mathlib

/-!
Shallow embedding of the job-orchestration core of the
playwright-lighthouse-test repository: the `ResourceManager` concurrency
limiter, the `ResultCache` (in-memory timestamp index plus on-disk
`cache/<key>.json` files), the `testWebsite` retry loop, the concurrent batch
fan-out of `optimizedBatchTest`, the `generateSummaryReport` aggregation, and
`loadConfig`.

Modelling conventions:
* `Date.now()` instants are explicit `Int` parameters (JavaScript numbers on
  timestamps behave as integers here);
* the file system backing the cache is an explicit association list together
  with `FsFlags` choosing which `fs` calls raise an I/O error;
* JavaScript object references (needed for the `screenshotOptions` object
  that the retry loop mutates in place) are indices into an explicit heap
  (`List SSOpts`);
* the external collaborators (`runFullTest`, `crypto.createHash` with the md5 algorithm,
  `JSON.stringify`, `JSON.parse`, `fs.readFileSync` of the config file) are
  parameters of the corresponding definitions.
-/

namespace PLTest

/-- Association list lookup, modelling `Map.get` on string keys and lookup of
a file named `<key>.json` in the cache directory. -/
def alookup {β : Type} : List (String × β) → String → Option β
  | [], _ => none
  | (k, v) :: rest, key => if k = key then some v else alookup rest key

/-- Association list removal, modelling `Map.delete` and `fs.unlinkSync`. -/
def aerase {β : Type} : List (String × β) → String → List (String × β)
  | [], _ => []
  | (k, v) :: rest, key =>
    if k = key then aerase rest key else (k, v) :: aerase rest key

/-- Association list overwrite, modelling `Map.set` and `fs.writeFileSync`
(last write for a key wins). -/
def ainsert {β : Type} (l : List (String × β)) (key : String) (v : β) :
    List (String × β) :=
  (key, v) :: aerase l key

theorem alookup_aerase {β : Type} (l : List (String × β)) (key : String) :
    alookup (aerase l key) key = none := by
  induction l with
  | nil => simp [aerase, alookup]
  | cons h t ih =>
    obtain ⟨k, v⟩ := h
    by_cases hk : k = key
    · simpa [aerase, hk] using ih
    · simpa [aerase, alookup, hk] using ih

theorem alookup_ainsert {β : Type} (l : List (String × β)) (key : String) (v : β) :
    alookup (ainsert l key v) key = some v := by
  simp [ainsert, alookup]

/-- Flags choosing which backing-store accesses raise an I/O error.  The
real backing store is the `./cache` directory accessed through `fs`. -/
structure FsFlags where
  readFails : Bool
  writeFails : Bool
  unlinkFails : Bool
  deriving DecidableEq, Repr

/-- The error-free file system. -/
def noFail : FsFlags :=
  { readFails := false, writeFails := false, unlinkFails := false }

/-- State of a `ResultCache` instance (src/unnamed/part_001, lines 62-179):
`cache` is the in-memory `Map` from cache key to `{ timestamp }`, `cacheDir`
holds the persisted `cache/<key>.json` files, each storing
`{ timestamp, result }`, and `cacheDuration` is the freshness window in
milliseconds. -/
structure ResultCache (α : Type) where
  cache : List (String × Int)
  cacheDir : List (String × (Int × α))
  cacheDuration : Int
  deriving DecidableEq, Repr

/-- `ResultCache.has` (part_001 lines 84-101): a key is valid while
`now - timestamp < cacheDuration`; an invalid entry is deleted from the
in-memory map and its file is unlinked.  The `unlinkSync` call is NOT inside
a try/catch in the source, so a failing unlink propagates an exception
(modelled as the `Except.error` branch) after the in-memory entry has
already been deleted. -/
def ResultCache.has {α : Type} (fsf : FsFlags) (s : ResultCache α)
    (key : String) (now : Int) :
    Except (String × ResultCache α) (Bool × ResultCache α) :=
  match alookup s.cache key with
  | none => Except.ok (false, s)
  | some ts =>
    if now - ts < s.cacheDuration then Except.ok (true, s)
    else
      let s1 : ResultCache α := { s with cache := aerase s.cache key }
      match alookup s1.cacheDir key with
      | some _ =>
        if fsf.unlinkFails then Except.error ("unlink failed", s1)
        else Except.ok (false, { s1 with cacheDir := aerase s1.cacheDir key })
      | none => Except.ok (false, s1)

/-- `ResultCache.get` (part_001 lines 104-120): re-checks `has` (whose
exception propagates), then reads and parses the cache file inside a
try/catch, so a read failure degrades to `none`; returns `data.result`. -/
def ResultCache.get {α : Type} (fsf : FsFlags) (s : ResultCache α)
    (key : String) (now : Int) :
    Except (String × ResultCache α) (Option α × ResultCache α) :=
  match ResultCache.has fsf s key now with
  | Except.error e => Except.error e
  | Except.ok (false, s1) => Except.ok (none, s1)
  | Except.ok (true, s1) =>
    match alookup s1.cacheDir key with
    | some tr =>
      if fsf.readFails then Except.ok (none, s1) else Except.ok (some tr.2, s1)
    | none => Except.ok (none, s1)

/-- `ResultCache.set` (part_001 lines 123-139): stores `{ timestamp := now }`
in the in-memory map, then writes `{ timestamp, result }` to the cache file
inside a try/catch — a write failure is absorbed, leaving the file absent. -/
def ResultCache.set {α : Type} (fsf : FsFlags) (s : ResultCache α)
    (key : String) (now : Int) (r : α) : ResultCache α :=
  let s1 : ResultCache α := { s with cache := ainsert s.cache key now }
  if fsf.writeFails then s1
  else { s1 with cacheDir := ainsert s1.cacheDir key (now, r) }

/-- `ResultCache.generateKey` (part_001 lines 78-81):
`md5hex (JSON.stringify { url, options })`.  `JSON.stringify` and the md5
digest are external collaborators (Node built-ins), passed as function
parameters; determinism of the key is exactly function application. -/
def generateKey (stringify : String → String → String)
    (md5hex : String → String) (url options : String) : String :=
  md5hex (stringify url options)

/-- A fresh `get` after a `set` of the same key inside the cache window
returns the stored result unchanged. -/
theorem get_after_set_fresh {α : Type} (s : ResultCache α) (key : String)
    (r : α) (t0 d : Int) (h0 : 0 ≤ d) (hd : d < s.cacheDuration) :
    ResultCache.get noFail (ResultCache.set noFail s key t0 r) key (t0 + d) =
      Except.ok (some r, ResultCache.set noFail s key t0 r) := by
  have harith : t0 + d - t0 = d := by omega
  simp only [ResultCache.get, ResultCache.has, ResultCache.set, noFail,
    Bool.false_eq_true, if_false, alookup_ainsert, harith, if_pos hd]

/-- A `get` after a `set` of the same key once the cache window has elapsed
returns `none` and evicts the key from both the in-memory map and the disk
files. -/
theorem get_after_set_expired {α : Type} (s : ResultCache α) (key : String)
    (r : α) (t0 d : Int) (hd : s.cacheDuration ≤ d) :
    ∃ s2 : ResultCache α,
      ResultCache.get noFail (ResultCache.set noFail s key t0 r) key (t0 + d) =
        Except.ok (none, s2) ∧
      alookup s2.cache key = none ∧ alookup s2.cacheDir key = none := by
  have harith : t0 + d - t0 = d := by omega
  have hlt : ¬ (d < s.cacheDuration) := by omega
  refine ⟨{ cache := aerase (ainsert s.cache key t0) key,
            cacheDir := aerase (ainsert s.cacheDir key (t0, r)) key,
            cacheDuration := s.cacheDuration }, ?_, ?_, ?_⟩
  · simp only [ResultCache.get, ResultCache.has, ResultCache.set, noFail,
      Bool.false_eq_true, if_false, alookup_ainsert, harith, if_neg hlt]
  · exact alookup_aerase _ _
  · exact alookup_aerase _ _

/-! ## ResourceManager (src/unnamed/part_001, lines 29-57) -/

/-- State of a `ResourceManager`: the capacity, the `running` counter and the
FIFO `queue` of pending `acquire` resolvers (identified by job id). -/
structure ResourceManager where
  maxConcurrent : Nat
  running : Nat
  queue : List Nat
  deriving DecidableEq, Repr

/-- `acquire` (part_001 lines 36-46): grants a slot immediately (incrementing
`running`, second component `true`) while `running < maxConcurrent`;
otherwise appends the caller to the wait queue (second component `false`,
the caller blocks). -/
def ResourceManager.acquire (s : ResourceManager) (j : Nat) :
    ResourceManager × Bool :=
  if s.running < s.maxConcurrent then
    ({ s with running := s.running + 1 }, true)
  else
    ({ s with queue := s.queue ++ [j] }, false)

/-- `release` (part_001 lines 48-56): with a non-empty queue, shifts and
resolves the first waiter (returned as `some n`) without touching `running`;
otherwise decrements `running`. -/
def ResourceManager.release (s : ResourceManager) :
    ResourceManager × Option Nat :=
  match s.queue with
  | [] => ({ s with running := s.running - 1 }, none)
  | n :: q => ({ s with queue := q }, some n)

/-- An event of the limiter protocol: job `j` calls `acquire`, or job `j`
(currently holding a slot) calls `release`. -/
inductive RMEvent where
  | acq (j : Nat)
  | rel (j : Nat)
  deriving DecidableEq, Repr

/-- One protocol step over `(limiter state, active jobs)`.  The second
component is the list of jobs currently between a completed `acquire` and the
matching `release`: a granted acquirer joins it, a queued acquirer does not
(it is blocked), and a `release` removes the releasing holder and adds the
waiter it resolves, if any.  A `release` by a job that holds no slot is not
part of the protocol and is ignored. -/
def rmStep (p : ResourceManager × List Nat) (e : RMEvent) :
    ResourceManager × List Nat :=
  match e with
  | RMEvent.acq j =>
    match p.1.acquire j with
    | (s1, true) => (s1, p.2 ++ [j])
    | (s1, false) => (s1, p.2)
  | RMEvent.rel j =>
    if j ∈ p.2 then
      match p.1.release with
      | (s1, some n) => (s1, (p.2.erase j) ++ [n])
      | (s1, none) => (s1, p.2.erase j)
    else p

/-- A fresh `ResourceManager` with capacity `C` (constructor, lines 30-34). -/
def rmInit (C : Nat) : ResourceManager :=
  { maxConcurrent := C, running := 0, queue := [] }

/-- Run a whole event trace from the initial state. -/
def rmRun (C : Nat) (es : List RMEvent) : ResourceManager × List Nat :=
  es.foldl rmStep (rmInit C, [])

/-- Inductive invariant of the limiter: the active-job count coincides with
the `running` counter and never exceeds the capacity. -/
def rmInv (C : Nat) (p : ResourceManager × List Nat) : Prop :=
  p.1.maxConcurrent = C ∧ p.2.length = p.1.running ∧ p.1.running ≤ C

theorem rmStep_inv (C : Nat) (e : RMEvent) (p : ResourceManager × List Nat)
    (h : rmInv C p) : rmInv C (rmStep p e) := by
  obtain ⟨s, act⟩ := p
  obtain ⟨hmax, hlen, hle⟩ := h
  dsimp only at hmax hlen hle
  cases e with
  | acq j =>
    by_cases hr : s.running < s.maxConcurrent
    · simp only [rmStep, ResourceManager.acquire, if_pos hr]
      refine ⟨hmax, ?_, ?_⟩
      · simp only [List.length_append, List.length_cons, List.length_nil,
          hlen]
      · dsimp only
        omega
    · simp only [rmStep, ResourceManager.acquire, if_neg hr]
      exact ⟨hmax, hlen, hle⟩
  | rel j =>
    by_cases hj : j ∈ act
    · have hlene : (act.erase j).length = act.length - 1 :=
        List.length_erase_of_mem hj
      have hpos : 0 < act.length := List.length_pos.mpr (by
        intro hnil; rw [hnil] at hj; exact absurd hj (List.not_mem_nil j))
      cases hq : s.queue with
      | nil =>
        simp only [rmStep, ResourceManager.release, if_pos hj, hq]
        refine ⟨hmax, ?_, ?_⟩ <;> dsimp only <;> omega
      | cons n q =>
        simp only [rmStep, ResourceManager.release, if_pos hj, hq]
        refine ⟨hmax, ?_, ?_⟩ <;> dsimp only
        · simp only [List.length_append, hlene, List.length_cons,
            List.length_nil]
          omega
        · exact hle
    · simp only [rmStep, if_neg hj]
      exact ⟨hmax, hlen, hle⟩

theorem rmFoldl_inv (C : Nat) (es : List RMEvent)
    (p : ResourceManager × List Nat) (h : rmInv C p) :
    rmInv C (es.foldl rmStep p) := by
  induction es generalizing p with
  | nil => exact h
  | cons e es ih => exact ih _ (rmStep_inv C e p h)

theorem rmRun_inv (C : Nat) (es : List RMEvent) : rmInv C (rmRun C es) := by
  exact rmFoldl_inv C es _ ⟨rfl, rfl, Nat.zero_le C⟩

/-! ## testWebsite retry loop (src/unnamed/part_001, lines 189-314) -/

/-- Playwright navigation wait conditions used by the retry policy. -/
inductive WaitCond where
  | domcontentloaded
  | load
  deriving DecidableEq, Repr

/-- Looseness of a wait condition: `domcontentloaded` is the stricter
condition the loop starts from, `load` the looser fallback. -/
def WaitCond.loose : WaitCond → Nat
  | WaitCond.domcontentloaded => 0
  | WaitCond.load => 1

theorem loose_le_one (w : WaitCond) : w.loose ≤ 1 := by
  cases w <;> simp [WaitCond.loose]

/-- A `screenshotOptions` object.  Fields are `Option`-valued because the
object of the caller may lack them (JavaScript `undefined`); `fullPage` stands for
the remaining properties carried over by the spreads. -/
structure SSOpts where
  waitUntil : Option WaitCond
  timeout : Option Int
  fullPage : Option Bool
  deriving DecidableEq, Repr

/-- The empty object, i.e. the result of spreading `undefined`. -/
def emptySS : SSOpts := { waitUntil := none, timeout := none, fullPage := none }

/-- A caller-side `options` object: `screenshotOptions` holds a reference
(heap index) to an `SSOpts` object, or is absent. -/
structure OptionsObj where
  screenshotOptions : Option Nat
  outputFormat : String
  categories : List String
  deriving DecidableEq, Repr

/-- The check `error.message.includes` of the navigation mark (part_001 line
288): substring containment on the character lists. -/
def listStarts : List Char → List Char → Bool
  | [], _ => true
  | _ :: _, [] => false
  | a :: as, b :: bs => (a == b) && listStarts as bs

def listHasSub (pat : List Char) : List Char → Bool
  | [] => listStarts pat []
  | b :: bs => listStarts pat (b :: bs) || listHasSub pat bs

def isNavMark (msg : String) : Bool :=
  listHasSub "start lh:driver:navigate".data msg.data

/-- Value produced at the `testWebsite` boundary: the success result, the
`{ url, error }` object built on exhaustion, the `null` returned on a cache
hit whose payload cannot be read, or a propagated exception. -/
inductive TWOut (α : Type) where
  | success (r : α)
  | failure (url : String) (msg : String)
  | nullR
  | thrown
  deriving DecidableEq, Repr

/-- `true` exactly on the two shapes the spec calls a `JobResult`. -/
def TWOut.isJobResult {α : Type} : TWOut α → Bool
  | TWOut.success _ => true
  | TWOut.failure _ _ => true
  | TWOut.nullR => false
  | TWOut.thrown => false

/-- Observable outcome of one `testWebsite` call: the returned value, the
number of attempts made (calls of `runFullTest`), the `waitUntil` condition
in force at each attempt, and the final heap and cache states. -/
structure TWRun (α : Type) where
  res : TWOut α
  attempts : Nat
  waitTrace : List WaitCond
  heap : List SSOpts
  cache : ResultCache α

/-- The strategy adjustment at the top of a retry iteration (part_001 lines
216-225): with `retries > 0` the `screenshotOptions` object at `eAddr` gets
a longer timeout, and from the second retry on `waitUntil := load`. -/
def preAdjust (retries : Nat) (heap : List SSOpts) (eAddr : Nat) :
    List SSOpts :=
  if 0 < retries then
    let cur := heap.getD eAddr emptySS
    let cur1 := { cur with timeout := some (60000 + (retries : Int) * 30000) }
    let cur2 :=
      if 2 ≤ retries then { cur1 with waitUntil := some WaitCond.load }
      else cur1
    heap.set eAddr cur2
  else heap

/-- The reaction to a Lighthouse navigation-mark error (part_001 lines
288-292): when the message carries the mark and retries remain
(`retries < maxRetries`, i.e. `0 < rem`), `waitUntil := load` is written to
the `screenshotOptions` object. -/
def navAdjust (msg : String) (rem : Nat) (heap : List SSOpts) (eAddr : Nat) :
    List SSOpts :=
  if isNavMark msg = true ∧ 0 < rem then
    heap.set eAddr
      { heap.getD eAddr emptySS with waitUntil := some WaitCond.load }
  else heap

/-- The `waitUntil` condition currently stored at `eAddr`. -/
def wcAt (heap : List SSOpts) (eAddr : Nat) : WaitCond :=
  ((heap.getD eAddr emptySS).waitUntil).getD WaitCond.domcontentloaded

/-- The `while (retries <= maxRetries)` loop of `testWebsite` (part_001
lines 211-304), with `rem = maxRetries - retries` as the structural fuel:
the entry point passes `retries = 0`, `rem = maxRetries`, so
`retries + rem = maxRetries` throughout and `retries < maxRetries` is
exactly `0 < rem`.

Per iteration: `preAdjust` mutates the enhanced `screenshotOptions` object
at `eAddr`, then `runFullTest` is called — modelled by the oracle `f`,
mapping the 1-based attempt index and the current `screenshotOptions` value
to a result or an error message (a returned value without `.lighthouse` is
folded into the error case, as the source throws a fixed error inside the
same try).  On success the result is cached and returned; on failure
`navAdjust` reacts to a navigation-mark error, and the loop retries after a
backoff or, with the budget exhausted, breaks and returns
`{ url, error: lastError.message }` (the message of the attempt that just
failed).  `waitTrace` records the `waitUntil` condition in force at each
attempt. -/
def twLoop {α : Type} (fsf : FsFlags) (website key : String) (now : Int)
    (f : Nat → SSOpts → Except String α) :
    Nat → Nat → List SSOpts → Nat → ResultCache α → TWRun α
  | rem, retries, heap, eAddr, cache =>
    let heap1 := preAdjust retries heap eAddr
    match f (retries + 1) (heap1.getD eAddr emptySS) with
    | Except.ok r =>
      { res := TWOut.success r, attempts := retries + 1,
        waitTrace := [wcAt heap1 eAddr], heap := heap1,
        cache := ResultCache.set fsf cache key now r }
    | Except.error msg =>
      let heap2 := navAdjust msg rem heap1 eAddr
      match rem with
      | 0 =>
        { res := TWOut.failure website msg, attempts := retries + 1,
          waitTrace := [wcAt heap1 eAddr], heap := heap2, cache := cache }
      | rem' + 1 =>
        let out := twLoop fsf website key now f rem' (retries + 1) heap2 eAddr cache
        { out with waitTrace := wcAt heap1 eAddr :: out.waitTrace }

/-- The construction of `enhancedOptions.screenshotOptions` (part_001 lines
202-209): a fresh object spreading the `screenshotOptions` the caller
references (the spread of an absent field is the empty object), with
`waitUntil` set to `domcontentloaded` and `timeout` to 60000. -/
def enhanceCell (heap : List SSOpts) (opts : OptionsObj) : SSOpts :=
  let base :=
    match opts.screenshotOptions with
    | some a => heap.getD a emptySS
    | none => emptySS
  { base with waitUntil := some WaitCond.domcontentloaded,
              timeout := some 60000 }

/-- `testWebsite` (part_001 lines 189-314), with `key = generateKey website
options`.  First the cache check: `has` may propagate an unlink exception;
on a hit, `get` returns the payload — possibly `null` — which is returned
directly.  On a miss the slot is acquired (the `ResourceManager` wait is not
observable in this per-job view), the options are enhanced — a shallow copy
of `options` whose `screenshotOptions` field is replaced by a freshly
allocated object spreading the old one with `waitUntil` set to
`domcontentloaded` and `timeout` to 60000 — and the retry loop runs. -/
def testWebsite {α : Type} (fsf : FsFlags) (cache : ResultCache α)
    (heap : List SSOpts) (website : String) (opts : OptionsObj) (key : String)
    (now : Int) (f : Nat → SSOpts → Except String α) (maxRetries : Nat) :
    TWRun α :=
  match ResultCache.has fsf cache key now with
  | Except.error e =>
    { res := TWOut.thrown, attempts := 0, waitTrace := [], heap := heap,
      cache := e.2 }
  | Except.ok (true, s1) =>
    match ResultCache.get fsf s1 key now with
    | Except.error e =>
      { res := TWOut.thrown, attempts := 0, waitTrace := [], heap := heap,
        cache := e.2 }
    | Except.ok (some r, s2) =>
      { res := TWOut.success r, attempts := 0, waitTrace := [], heap := heap,
        cache := s2 }
    | Except.ok (none, s2) =>
      { res := TWOut.nullR, attempts := 0, waitTrace := [], heap := heap,
        cache := s2 }
  | Except.ok (false, s1) =>
    twLoop fsf website key now f maxRetries 0
      (heap ++ [enhanceCell heap opts]) heap.length s1

/-! ## Batch fan-out (src/unnamed/part_001, lines 425-480)

`optimizedBatchTest` maps every website to an async job; each job awaits
`testWebsite` and then pushes exactly one entry for its website onto the
shared `batchResults` array, so the array collects entries in the order the
jobs complete.  `completion` below is that completion order, as the list of
input indices of the jobs in the order they finished; the entry pushed for
index `i` is tagged with the `i`-th input website. -/
def batchOutcome (targets : List String) (completion : List Nat) :
    List String :=
  completion.map (fun i => targets.getD i "")

/-! ## Summary report (src/unnamed/part_001, lines 505-540; the same
computation appears in src/batch-test.js, lines 105-139) -/

/-- One entry of `batchResults`: either `{ url, scores, ... }` for a
successful test (scores as a JavaScript object, i.e. an association list
category → number) or `{ url, error }` for a failed one. -/
inductive BatchEntry where
  | ok (url : String) (scores : List (String × Rat))
  | err (url : String) (msg : String)
  deriving DecidableEq, Repr

/-- `r.error` truthiness. -/
def BatchEntry.hasErr : BatchEntry → Bool
  | BatchEntry.ok _ _ => false
  | BatchEntry.err _ _ => true

/-- `r.scores`, as an optional object. -/
def BatchEntry.scoresOf : BatchEntry → Option (List (String × Rat))
  | BatchEntry.ok _ sc => some sc
  | BatchEntry.err _ _ => none

/-- `r.scores[category]`, `none` when the field or the category is absent. -/
def scoreOf (r : BatchEntry) (c : String) : Option Rat :=
  alookup (r.scoresOf.getD []) c

/-- `results.filter(r => r.scores)`. -/
def successfulResults (rs : List BatchEntry) : List BatchEntry :=
  rs.filter fun r => r.scoresOf.isSome

/-- JavaScript `Set` insertion order: first occurrence of each key is kept. -/
def dedupKeys (l : List String) : List String :=
  l.foldl (fun acc k => if k ∈ acc then acc else acc ++ [k]) []

/-- All categories appearing in some successful result, in `Set` insertion
order (lines 523-527). -/
def categoriesOf (rs : List BatchEntry) : List String :=
  dedupKeys ((successfulResults rs).flatMap fun r =>
    (r.scoresOf.getD []).map Prod.fst)

/-- The value computed for one category (lines 530-536): the `reduce` sum
over the successful results that carry the category, divided by their number
(0 when that number is 0). -/
def avgVal (rs : List BatchEntry) (c : String) : Rat :=
  let withC := (successfulResults rs).filter fun r => (scoreOf r c).isSome
  let sum := withC.foldl (fun acc r => acc + (scoreOf r c).getD 0) 0
  let count := withC.length
  if 0 < count then sum / (count : Rat) else 0

/-- The `averageScores` object (lines 529-537). -/
def averageScores (rs : List BatchEntry) : List (String × Rat) :=
  (categoriesOf rs).map fun c => (c, avgVal rs c)

/-- The fields of `summaryData` relevant to the aggregation claims. -/
structure SummaryData where
  totalWebsites : Nat
  successfulTests : Nat
  failedTests : Nat
  averageScores : Option (List (String × Rat))

/-- `generateSummaryReport` (lines 505-540): counts over the results array,
plus `averageScores`, attached only when at least one result has scores. -/
def generateSummaryReport (rs : List BatchEntry) : SummaryData :=
  { totalWebsites := rs.length
    successfulTests := (rs.filter fun r => !r.hasErr).length
    failedTests := (rs.filter fun r => r.hasErr).length
    averageScores :=
      if 0 < (successfulResults rs).length then some (averageScores rs)
      else none }

/-- Modelled from the spec: the scores contributed to category `c` — one per
successful result that carries the category; failed targets and results
lacking the category contribute nothing. -/
def specContributions (c : String) (rs : List BatchEntry) : List Rat :=
  rs.filterMap fun r =>
    match r with
    | BatchEntry.ok _ sc => alookup sc c
    | BatchEntry.err _ _ => none

/-- Modelled from the spec: the per-category arithmetic mean over successful
results only. -/
def specCategoryMean (c : String) (rs : List BatchEntry) : Rat :=
  (specContributions c rs).sum / ((specContributions c rs).length : Rat)

/-! ## loadConfig (src/unnamed/part_001, lines 16-24; identical in
src/batch-test.js, lines 10-18) -/

/-- The parsed shape of `websites.json` as the batch entry points read it:
the `websites` array and the optional `testOptions` object (kept opaque). -/
structure SiteConfig where
  websites : Option (List String)
  testOptions : Option String
  deriving DecidableEq, Repr

/-- `loadConfig` (lines 16-24): `fs.readFileSync` and `JSON.parse` are
external calls, given here by their outcomes; any failure of either is
caught and turned into the default `{ websites: [] }` object. -/
def loadConfig (readResult : Except String String)
    (parseJson : String → Except String SiteConfig) : SiteConfig :=
  match readResult with
  | Except.error _ => { websites := some [], testOptions := none }
  | Except.ok data =>
    match parseJson data with
    | Except.error _ => { websites := some [], testOptions := none }
    | Except.ok c => c

/-- The guard of `optimizedBatchTest` (part_001 lines 397-400): with a
missing or empty `websites` list the function returns immediately; otherwise
it dispatches one job per website. -/
def batchDispatch (c : SiteConfig) : Option (List String) :=
  match c.websites with
  | none => none
  | some [] => none
  | some ws => some ws

/-! ## Retry-loop lemmas -/

/-- If the oracle fails exactly on the first `K` attempts and succeeds
afterwards, the loop entered with `retries ≤ K ≤ retries + rem` succeeds at
attempt `K + 1`. -/
theorem twLoop_success {α : Type} (fsf : FsFlags) (website key : String)
    (now : Int) (f : Nat → SSOpts → Except String α) (K : Nat) (a : α)
    (errOf : Nat → String)
    (hfail : ∀ i o, i ≤ K → f i o = Except.error (errOf i))
    (hok : ∀ i o, K < i → f i o = Except.ok a) :
    ∀ rem retries heap eAddr cache, retries ≤ K → K ≤ retries + rem →
      (twLoop fsf website key now f rem retries heap eAddr cache).res =
          TWOut.success a ∧
      (twLoop fsf website key now f rem retries heap eAddr cache).attempts =
          K + 1 := by
  intro rem
  induction rem with
  | zero =>
    intro retries heap eAddr cache h1 h2
    have hreq : K = retries := by omega
    subst hreq
    rw [twLoop]
    simp only [show ∀ o, f (K + 1) o = Except.ok a from
      fun o => hok (K + 1) o (by omega)]
    exact ⟨trivial, trivial⟩
  | succ rem' ih =>
    intro retries heap eAddr cache h1 h2
    by_cases hrk : retries = K
    · subst hrk
      rw [twLoop]
      simp only [show ∀ o, f (retries + 1) o = Except.ok a from
        fun o => hok (retries + 1) o (by omega)]
      exact ⟨trivial, trivial⟩
    · have hlt : retries < K := by omega
      rw [twLoop]
      simp only [show ∀ o, f (retries + 1) o = Except.error (errOf (retries + 1))
        from fun o => hfail (retries + 1) o (by omega)]
      exact ih (retries + 1) _ eAddr cache (by omega) (by omega)

/-- If the oracle fails on every attempt up to `retries + rem + 1`, the loop
exhausts its budget: it fails with the message of the last attempt after
`retries + rem + 1` attempts. -/
theorem twLoop_exhaust {α : Type} (fsf : FsFlags) (website key : String)
    (now : Int) (f : Nat → SSOpts → Except String α) (errOf : Nat → String) :
    ∀ rem retries heap eAddr cache,
      (∀ i o, i ≤ retries + rem + 1 → f i o = Except.error (errOf i)) →
      (twLoop fsf website key now f rem retries heap eAddr cache).res =
          TWOut.failure website (errOf (retries + rem + 1)) ∧
      (twLoop fsf website key now f rem retries heap eAddr cache).attempts =
          retries + rem + 1 := by
  intro rem
  induction rem with
  | zero =>
    intro retries heap eAddr cache hfail
    rw [twLoop]
    simp only [show ∀ o, f (retries + 1) o = Except.error (errOf (retries + 1))
      from fun o => hfail (retries + 1) o (by omega)]
    exact ⟨trivial, trivial⟩
  | succ rem' ih =>
    intro retries heap eAddr cache hfail
    rw [twLoop]
    simp only [show ∀ o, f (retries + 1) o = Except.error (errOf (retries + 1))
      from fun o => hfail (retries + 1) o (by omega)]
    have he : retries + 1 + rem' + 1 = retries + (rem' + 1) + 1 := by omega
    have h := ih (retries + 1)
      (navAdjust (errOf (retries + 1)) (rem' + 1)
        (preAdjust retries heap eAddr) eAddr)
      eAddr cache (fun i o hi => hfail i o (by omega))
    rw [he] at h
    exact h

/-- A cache miss: `has` on a key absent from the in-memory map returns
`false` without touching any state, for every file-system behaviour. -/
theorem has_of_none {α : Type} (fsf : FsFlags) (cache : ResultCache α)
    (key : String) (now : Int) (hmiss : alookup cache.cache key = none) :
    ResultCache.has fsf cache key now = Except.ok (false, cache) := by
  simp [ResultCache.has, hmiss]

/-- On a cache miss, `testWebsite` is the retry loop run on the freshly
allocated enhanced options object. -/
theorem testWebsite_miss {α : Type} (fsf : FsFlags) (cache : ResultCache α)
    (heap : List SSOpts) (website : String) (opts : OptionsObj) (key : String)
    (now : Int) (f : Nat → SSOpts → Except String α) (maxRetries : Nat)
    (hmiss : alookup cache.cache key = none) :
    testWebsite fsf cache heap website opts key now f maxRetries =
      twLoop fsf website key now f maxRetries 0
        (heap ++ [enhanceCell heap opts]) heap.length cache := by
  rw [testWebsite, has_of_none fsf cache key now hmiss]

/-- The loop always returns a `JobResult`: a success or a failure tagged
with the website (every attempt body is inside the try/catch). -/
theorem twLoop_total {α : Type} (fsf : FsFlags) (website key : String)
    (now : Int) (f : Nat → SSOpts → Except String α) :
    ∀ rem retries heap eAddr cache,
      (∃ r, (twLoop fsf website key now f rem retries heap eAddr cache).res =
          TWOut.success r) ∨
      (∃ m, (twLoop fsf website key now f rem retries heap eAddr cache).res =
          TWOut.failure website m) := by
  intro rem
  induction rem with
  | zero =>
    intro retries heap eAddr cache
    rw [twLoop]
    rcases hf : f (retries + 1)
        ((preAdjust retries heap eAddr).getD eAddr emptySS) with m | r
    · exact Or.inr ⟨m, by simp only [hf]⟩
    · exact Or.inl ⟨r, by simp only [hf]⟩
  | succ rem' ih =>
    intro retries heap eAddr cache
    rw [twLoop]
    rcases hf : f (retries + 1)
        ((preAdjust retries heap eAddr).getD eAddr emptySS) with m | r
    · have h := ih (retries + 1)
        (navAdjust m (rem' + 1) (preAdjust retries heap eAddr) eAddr)
        eAddr cache
      rcases h with ⟨r, hr⟩ | ⟨m2, hm⟩
      · exact Or.inl ⟨r, by simp only [hf]; exact hr⟩
      · exact Or.inr ⟨m2, by simp only [hf]; exact hm⟩
    · exact Or.inl ⟨r, by simp only [hf]⟩

theorem preAdjust_frame (retries : Nat) (heap : List SSOpts) (eAddr a : Nat)
    (ha : a ≠ eAddr) : (preAdjust retries heap eAddr)[a]? = heap[a]? := by
  by_cases h : 0 < retries
  · simp only [preAdjust, if_pos h]
    exact List.getElem?_set_ne (Ne.symm ha)
  · simp [preAdjust, if_neg h]

theorem navAdjust_frame (msg : String) (rem : Nat) (heap : List SSOpts)
    (eAddr a : Nat) (ha : a ≠ eAddr) :
    (navAdjust msg rem heap eAddr)[a]? = heap[a]? := by
  unfold navAdjust
  split
  · exact List.getElem?_set_ne (Ne.symm ha)
  · rfl

/-- The loop writes only the enhanced options object: every other heap cell
is untouched. -/
theorem twLoop_heap_frame {α : Type} (fsf : FsFlags) (website key : String)
    (now : Int) (f : Nat → SSOpts → Except String α) :
    ∀ rem retries heap eAddr cache a, a ≠ eAddr →
      ((twLoop fsf website key now f rem retries heap eAddr cache).heap)[a]? =
        heap[a]? := by
  intro rem
  induction rem with
  | zero =>
    intro retries heap eAddr cache a ha
    rw [twLoop]
    rcases hf : f (retries + 1)
        ((preAdjust retries heap eAddr).getD eAddr emptySS) with m | r
    · simp only [hf]
      rw [navAdjust_frame _ _ _ _ _ ha, preAdjust_frame _ _ _ _ ha]
    · simp only [hf]
      exact preAdjust_frame _ _ _ _ ha
  | succ rem' ih =>
    intro retries heap eAddr cache a ha
    rw [twLoop]
    rcases hf : f (retries + 1)
        ((preAdjust retries heap eAddr).getD eAddr emptySS) with m | r
    · simp only [hf]
      rw [ih (retries + 1) _ eAddr cache a ha,
        navAdjust_frame _ _ _ _ _ ha, preAdjust_frame _ _ _ _ ha]
    · simp only [hf]
      exact preAdjust_frame _ _ _ _ ha

theorem wcAt_set (heap : List SSOpts) (eAddr : Nat) (v : SSOpts) :
    wcAt (heap.set eAddr v) eAddr =
      if eAddr < heap.length then v.waitUntil.getD WaitCond.domcontentloaded
      else wcAt heap eAddr := by
  by_cases h : eAddr < heap.length
  · simp [wcAt, List.getD_eq_getElem?_getD, List.getElem?_set_self h, h]
  · have hs : heap.set eAddr v = heap := List.set_eq_of_length_le (by omega)
    simp [wcAt, hs, h]

/-- `preAdjust` never makes the wait condition stricter. -/
theorem wcAt_preAdjust_le (retries : Nat) (heap : List SSOpts) (eAddr : Nat) :
    (wcAt heap eAddr).loose ≤ (wcAt (preAdjust retries heap eAddr) eAddr).loose := by
  by_cases h : 0 < retries
  · simp only [preAdjust, if_pos h, wcAt_set]
    by_cases hl : eAddr < heap.length
    · simp only [if_pos hl]
      by_cases h2 : 2 ≤ retries
      · simp only [if_pos h2]
        calc (wcAt heap eAddr).loose ≤ 1 := loose_le_one _
          _ = (WaitCond.load).loose := rfl
          _ = ((some WaitCond.load).getD WaitCond.domcontentloaded).loose := rfl
      · simp only [if_neg h2]
        exact le_of_eq rfl
    · simp only [if_neg hl]
      exact le_refl _
  · simp [preAdjust, if_neg h]

/-- `navAdjust` never makes the wait condition stricter. -/
theorem wcAt_navAdjust_le (msg : String) (rem : Nat) (heap : List SSOpts)
    (eAddr : Nat) :
    (wcAt heap eAddr).loose ≤ (wcAt (navAdjust msg rem heap eAddr) eAddr).loose := by
  unfold navAdjust
  split
  · rw [wcAt_set]
    by_cases hl : eAddr < heap.length
    · simp only [if_pos hl]
      exact le_trans (loose_le_one _) (le_of_eq rfl)
    · simp only [if_neg hl]
      exact le_refl _
  · exact le_refl _

/-- Across the retries of one job the wait condition only moves from
stricter to looser: the per-attempt trace is monotone, and its first entry
is at least as loose as the condition currently stored at `eAddr`. -/
theorem twLoop_trace_mono {α : Type} (fsf : FsFlags) (website key : String)
    (now : Int) (f : Nat → SSOpts → Except String α) :
    ∀ rem retries heap eAddr cache,
      List.Chain' (fun u v => WaitCond.loose u ≤ WaitCond.loose v)
        ((twLoop fsf website key now f rem retries heap eAddr cache).waitTrace) ∧
      (∀ w, ((twLoop fsf website key now f rem retries heap eAddr cache).waitTrace).head? =
          some w → (wcAt heap eAddr).loose ≤ w.loose) := by
  intro rem
  induction rem with
  | zero =>
    intro retries heap eAddr cache
    rw [twLoop]
    rcases hf : f (retries + 1)
        ((preAdjust retries heap eAddr).getD eAddr emptySS) with m | r <;>
      simp only [hf] <;>
      refine ⟨List.chain'_singleton _, ?_⟩ <;>
      intro w hw <;>
      simp only [List.head?_cons, Option.some_inj] at hw <;>
      rw [← hw] <;>
      exact wcAt_preAdjust_le retries heap eAddr
  | succ rem' ih =>
    intro retries heap eAddr cache
    rw [twLoop]
    rcases hf : f (retries + 1)
        ((preAdjust retries heap eAddr).getD eAddr emptySS) with m | r
    · have h := ih (retries + 1)
        (navAdjust m (rem' + 1) (preAdjust retries heap eAddr) eAddr)
        eAddr cache
      simp only [hf]
      constructor
      · rw [List.chain'_cons']
        refine ⟨?_, h.1⟩
        intro y hy
        have h2 := h.2 y hy
        refine le_trans ?_ h2
        exact wcAt_navAdjust_le m (rem' + 1) (preAdjust retries heap eAddr) eAddr
      · intro w hw
        simp only [List.head?_cons, Option.some_inj] at hw
        rw [← hw]
        exact wcAt_preAdjust_le retries heap eAddr
    · simp only [hf]
      refine ⟨List.chain'_singleton _, ?_⟩
      intro w hw
      simp only [List.head?_cons, Option.some_inj] at hw
      rw [← hw]
      exact wcAt_preAdjust_le retries heap eAddr

/-! ## Summary-report lemmas -/

theorem foldl_add_map (h : BatchEntry → Rat) :
    ∀ (l : List BatchEntry) (init : Rat),
      l.foldl (fun acc r => acc + h r) init = init + (l.map h).sum := by
  intro l
  induction l with
  | nil => intro init; simp
  | cons a t ih =>
    intro init
    simp only [List.foldl_cons, List.map_cons, List.sum_cons, ih, add_assoc]

/-- The getD-images of the successful results carrying category `c` are
exactly the spec-side contributions to `c`. -/
theorem withC_map_eq (c : String) :
    ∀ rs : List BatchEntry,
      (((successfulResults rs).filter fun r => (scoreOf r c).isSome).map
        fun r => (scoreOf r c).getD 0) = specContributions c rs := by
  intro rs
  induction rs with
  | nil => rfl
  | cons r t ih =>
    cases r with
    | ok u sc =>
      have hsucc : successfulResults (BatchEntry.ok u sc :: t) =
          BatchEntry.ok u sc :: successfulResults t := by
        simp [successfulResults, List.filter_cons, BatchEntry.scoresOf]
      cases hsc : alookup sc c with
      | none =>
        have hp : (scoreOf (BatchEntry.ok u sc) c).isSome = false := by
          simp [scoreOf, BatchEntry.scoresOf, hsc]
        have hspec : specContributions c (BatchEntry.ok u sc :: t) =
            specContributions c t := by
          simp [specContributions, List.filterMap_cons, hsc]
        rw [hsucc, hspec, List.filter_cons, hp]
        simp only [Bool.false_eq_true, if_false]
        exact ih
      | some v =>
        have hp : (scoreOf (BatchEntry.ok u sc) c).isSome = true := by
          simp [scoreOf, BatchEntry.scoresOf, hsc]
        have hval : (scoreOf (BatchEntry.ok u sc) c).getD 0 = v := by
          simp [scoreOf, BatchEntry.scoresOf, hsc]
        have hspec : specContributions c (BatchEntry.ok u sc :: t) =
            v :: specContributions c t := by
          simp [specContributions, List.filterMap_cons, hsc]
        rw [hsucc, hspec, List.filter_cons, hp]
        simp only [if_true, List.map_cons, hval]
        rw [ih]
    | err u m =>
      have hsucc : successfulResults (BatchEntry.err u m :: t) =
          successfulResults t := by
        simp [successfulResults, List.filter_cons, BatchEntry.scoresOf]
      have hspec : specContributions c (BatchEntry.err u m :: t) =
          specContributions c t := by
        simp [specContributions, List.filterMap_cons]
      rw [hsucc, hspec]
      exact ih

theorem alookup_map_pair (g : String → Rat) :
    ∀ (l : List String) (c : String), c ∈ l →
      alookup (l.map fun k => (k, g k)) c = some (g c) := by
  intro l
  induction l with
  | nil => intro c hc; cases hc
  | cons k t ih =>
    intro c hc
    by_cases hk : k = c
    · simp [alookup, hk]
    · have hct : c ∈ t := by
        rcases List.mem_cons.mp hc with h | h
        · exact absurd h.symm hk
        · exact h
      simp [alookup, hk, ih c hct]

theorem mem_dedup_foldl (l : List String) :
    ∀ (acc : List String) (x : String),
      x ∈ l.foldl (fun acc k => if k ∈ acc then acc else acc ++ [k]) acc ↔
        x ∈ acc ∨ x ∈ l := by
  induction l with
  | nil => intro acc x; simp
  | cons k t ih =>
    intro acc x
    simp only [List.foldl_cons]
    by_cases hk : k ∈ acc
    · rw [if_pos hk, ih]
      constructor
      · rintro (h | h)
        · exact Or.inl h
        · exact Or.inr (List.mem_cons_of_mem _ h)
      · rintro (h | h)
        · exact Or.inl h
        · rcases List.mem_cons.mp h with h | h
          · exact Or.inl (h ▸ hk)
          · exact Or.inr h
    · rw [if_neg hk, ih]
      simp only [List.mem_append, List.mem_singleton, List.mem_cons]
      tauto

theorem mem_dedupKeys (l : List String) (x : String) :
    x ∈ dedupKeys l ↔ x ∈ l := by
  unfold dedupKeys
  rw [mem_dedup_foldl]
  simp

theorem alookup_isSome_mem {β : Type} :
    ∀ (l : List (String × β)) (c : String),
      (alookup l c).isSome = true → c ∈ l.map Prod.fst := by
  intro l
  induction l with
  | nil => intro c hc; simp [alookup] at hc
  | cons p t ih =>
    intro c hc
    obtain ⟨k, v⟩ := p
    by_cases hk : k = c
    · simp [hk]
    · simp only [alookup, if_neg hk] at hc
      exact List.mem_cons_of_mem _ (ih c hc)

/-- The category of any spec-side contribution is collected by the code. -/
theorem mem_categoriesOf (rs : List BatchEntry) (c : String)
    (hc : specContributions c rs ≠ []) :
    c ∈ categoriesOf rs ∧ 0 < (successfulResults rs).length := by
  have hmap := withC_map_eq c rs
  have hwc : ((successfulResults rs).filter fun r => (scoreOf r c).isSome) ≠ [] := by
    intro hnil
    rw [hnil] at hmap
    exact hc hmap.symm
  obtain ⟨r, hr⟩ := List.exists_mem_of_ne_nil _ hwc
  have hrs : r ∈ successfulResults rs := List.mem_of_mem_filter hr
  have hsome : (scoreOf r c).isSome = true := by
    have := List.of_mem_filter hr
    simpa using this
  refine ⟨?_, ?_⟩
  · unfold categoriesOf
    rw [mem_dedupKeys]
    rw [List.mem_flatMap]
    refine ⟨r, hrs, ?_⟩
    exact alookup_isSome_mem _ c hsome
  · exact List.length_pos.mpr (by
      intro hnil
      rw [hnil] at hrs
      exact absurd hrs (List.not_mem_nil r))

/-- The code-side category average equals the spec-side arithmetic mean over
the successful results carrying the category. -/
theorem avgVal_eq_specMean (rs : List BatchEntry) (c : String)
    (hc : specContributions c rs ≠ []) :
    avgVal rs c = specCategoryMean c rs := by
  have hmap := withC_map_eq c rs
  have hlen : (((successfulResults rs).filter fun r => (scoreOf r c).isSome)).length =
      (specContributions c rs).length := by
    rw [← hmap, List.length_map]
  have hpos : 0 < (specContributions c rs).length :=
    List.length_pos.mpr hc
  unfold avgVal specCategoryMean
  simp only []
  rw [foldl_add_map, hmap, hlen, if_pos (by omega)]
  rw [zero_add]

/-! ## Batch-order and error-path lemmas -/

theorem map_getD_range (l : List String) :
    (List.range l.length).map (fun i => l.getD i "") = l := by
  induction l with
  | nil => rfl
  | cons a t ih =>
    rw [List.length_cons, List.range_succ_eq_map, List.map_cons, List.map_map]
    have hcomp : ((fun i => List.getD (a :: t) i "") ∘ Nat.succ) =
        (fun i => List.getD t i "") := by
      funext i
      simp [List.getD_cons_succ]
    rw [hcomp, ih]
    simp [List.getD_cons_zero]

/-- With a working unlink, `has` never raises. -/
theorem has_no_unlink {α : Type} (fsf : FsFlags)
    (hul : fsf.unlinkFails = false) (s : ResultCache α) (key : String)
    (now : Int) :
    ∃ b s1, ResultCache.has fsf s key now = Except.ok (b, s1) := by
  unfold ResultCache.has
  cases halk : alookup s.cache key with
  | none => exact ⟨false, s, rfl⟩
  | some ts =>
    dsimp only
    by_cases hv : now - ts < s.cacheDuration
    · rw [if_pos hv]
      exact ⟨true, s, rfl⟩
    · rw [if_neg hv]
      cases hd : alookup s.cacheDir key with
      | none =>
        exact ⟨false, ResultCache.mk (aerase s.cache key) s.cacheDir
          s.cacheDuration, by simp [hd]⟩
      | some tr =>
        exact ⟨false, ResultCache.mk (aerase s.cache key)
          (aerase s.cacheDir key) s.cacheDuration, by simp [hd, hul]⟩

/-- With a working unlink, `get` never raises either. -/
theorem get_no_unlink {α : Type} (fsf : FsFlags)
    (hul : fsf.unlinkFails = false) (s : ResultCache α) (key : String)
    (now : Int) :
    ∃ v s1, ResultCache.get fsf s key now = Except.ok (v, s1) := by
  obtain ⟨b, s1, hb⟩ := has_no_unlink fsf hul s key now
  unfold ResultCache.get
  rw [hb]
  cases b
  · exact ⟨none, s1, rfl⟩
  · cases hd : alookup s1.cacheDir key with
    | none => exact ⟨none, s1, by simp [hd]⟩
    | some tr =>
      cases hr : fsf.readFails
      · exact ⟨some tr.2, s1, by simp [hd, hr]⟩
      · exact ⟨none, s1, by simp [hd, hr]⟩

/-- A failing read degrades `get` to a miss. -/
theorem get_read_fail {α : Type} (fsf : FsFlags)
    (hul : fsf.unlinkFails = false) (hrf : fsf.readFails = true)
    (s : ResultCache α) (key : String) (now : Int) :
    ∃ s1, ResultCache.get fsf s key now = Except.ok (none, s1) := by
  obtain ⟨b, s1, hb⟩ := has_no_unlink fsf hul s key now
  unfold ResultCache.get
  rw [hb]
  cases b
  · exact ⟨s1, rfl⟩
  · cases hd : alookup s1.cacheDir key with
    | none => exact ⟨s1, by simp [hd]⟩
    | some tr => exact ⟨s1, by simp [hd, hrf]⟩

/-- With a working unlink, no exception ever escapes `testWebsite`. -/
theorem testWebsite_no_thrown {α : Type} (fsf : FsFlags)
    (hul : fsf.unlinkFails = false) (cache : ResultCache α)
    (heap : List SSOpts) (website : String) (opts : OptionsObj) (key : String)
    (now : Int) (f : Nat → SSOpts → Except String α) (maxRetries : Nat) :
    (testWebsite fsf cache heap website opts key now f maxRetries).res ≠
      TWOut.thrown := by
  obtain ⟨b, s1, hb⟩ := has_no_unlink fsf hul cache key now
  unfold testWebsite
  rw [hb]
  cases b
  · dsimp only
    rcases twLoop_total fsf website key now f maxRetries 0
        (heap ++ [enhanceCell heap opts]) heap.length s1 with ⟨r, hr⟩ | ⟨m, hm⟩
    · rw [hr]
      intro h
      cases h
    · rw [hm]
      intro h
      cases h
  · obtain ⟨v, s2, hg⟩ := get_no_unlink fsf hul s1 key now
    dsimp only
    rw [hg]
    cases v <;> (intro h; cases h)

/-! ## Claims -/

/-- C1 (counterexample): for the batch run over targets `["a", "b"]` in
which the job for the second target completes first (completion order
`[1, 0]`, a permutation of the dispatch indices), the collected
`batchResults` is `["b", "a"]` — its first entry does not correspond to the
first input target, so the outcome does not preserve input order regardless
of completion order. -/
theorem batch_outcome_order_cex :
    List.Perm [1, 0] (List.range 2) ∧
    batchOutcome ["a", "b"] [1, 0] ≠ ["a", "b"] := by
  refine ⟨by decide, by decide⟩

/-- C1 (amended): for every batch run over a list of N targets, the
resulting `batchResults` contains exactly one entry per input target — its
length is N and its target tags are a permutation of the input list — but
the entries appear in job-completion order, not input order: the i-th entry
corresponds to the i-th input target only when jobs complete in dispatch
order. -/
theorem batch_outcome_completion_order (targets : List String)
    (completion : List Nat)
    (hperm : completion.Perm (List.range targets.length)) :
    (batchOutcome targets completion).length = targets.length ∧
    (batchOutcome targets completion).Perm targets := by
  have hmap : (batchOutcome targets completion).Perm
      ((List.range targets.length).map fun i => targets.getD i "") :=
    hperm.map _
  rw [map_getD_range] at hmap
  refine ⟨?_, hmap⟩
  have hlen := hperm.length_eq
  simp only [batchOutcome, List.length_map, hlen, List.length_range]

theorem batch_outcome_completion_order_witness :
    (batchOutcome ["a", "b"] [1, 0]).length = 2 ∧
    (batchOutcome ["a", "b"] [1, 0]).Perm ["a", "b"] :=
  batch_outcome_completion_order ["a", "b"] [1, 0] (by decide)

/-- C2: for every batch run with concurrency cap C, at every moment the
number of jobs simultaneously between a completed `acquire` and the
matching `release` is at most C: over every event trace from the initial
state the active-job list stays within the cap, `acquire` grants a slot
immediately exactly while the in-use count is below C (otherwise queueing
the caller), and `release` with a non-empty wait queue unblocks the first
waiter without decrementing the count. -/
theorem resourceManager_capacity_bound (C : Nat) (es : List RMEvent) :
    ((rmRun C es).2).length ≤ C ∧
    (∀ s j, ResourceManager.acquire s j =
      if s.running < s.maxConcurrent then
        ({ s with running := s.running + 1 }, true)
      else
        ({ s with queue := s.queue ++ [j] }, false)) ∧
    (∀ s, ResourceManager.release s =
      match s.queue with
      | [] => ({ s with running := s.running - 1 }, none)
      | n :: q => ({ s with queue := q }, some n)) := by
  refine ⟨?_, fun s j => rfl, fun s => rfl⟩
  obtain ⟨_, hlen, hle⟩ := rmRun_inv C es
  omega

/-- C3: for every target job run by `testWebsite` (entered on a cache miss)
whose underlying full test fails exactly K times and then would succeed:
with `maxRetries ≥ K` the final outcome is the success result after exactly
K+1 attempts; with `maxRetries < K` the final outcome is a failure after
exactly `maxRetries + 1` attempts. -/
theorem testWebsite_retry_budget {α : Type} (fsf : FsFlags)
    (cache : ResultCache α) (heap : List SSOpts) (website : String)
    (opts : OptionsObj) (key : String) (now : Int)
    (f : Nat → SSOpts → Except String α) (maxRetries K : Nat) (a : α)
    (errOf : Nat → String)
    (hmiss : alookup cache.cache key = none)
    (hfail : ∀ i o, i ≤ K → f i o = Except.error (errOf i))
    (hok : ∀ i o, K < i → f i o = Except.ok a) :
    (K ≤ maxRetries →
      (testWebsite fsf cache heap website opts key now f maxRetries).res =
          TWOut.success a ∧
      (testWebsite fsf cache heap website opts key now f maxRetries).attempts =
          K + 1) ∧
    (maxRetries < K →
      (testWebsite fsf cache heap website opts key now f maxRetries).res =
          TWOut.failure website (errOf (maxRetries + 1)) ∧
      (testWebsite fsf cache heap website opts key now f maxRetries).attempts =
          maxRetries + 1) := by
  rw [testWebsite_miss fsf cache heap website opts key now f maxRetries hmiss]
  constructor
  · intro hk
    exact twLoop_success fsf website key now f K a errOf hfail hok maxRetries 0
      (heap ++ [enhanceCell heap opts]) heap.length cache (by omega) (by omega)
  · intro hk
    have h := twLoop_exhaust fsf website key now f errOf maxRetries 0
      (heap ++ [enhanceCell heap opts]) heap.length cache
      (fun i o hi => hfail i o (by omega))
    have he : 0 + maxRetries + 1 = maxRetries + 1 := by omega
    rw [he] at h
    exact h

theorem testWebsite_retry_budget_witness :
    (testWebsite noFail (ResultCache.mk [] [] 1000 : ResultCache Nat) [] "w"
        (OptionsObj.mk none "html" []) "k" 0
        (fun i _ => if i ≤ 1 then Except.error "e" else Except.ok 5) 2).res =
      TWOut.success 5 ∧
    (testWebsite noFail (ResultCache.mk [] [] 1000 : ResultCache Nat) [] "w"
        (OptionsObj.mk none "html" []) "k" 0
        (fun i _ => if i ≤ 1 then Except.error "e" else Except.ok 5) 2).attempts =
      2 := by
  have h := (testWebsite_retry_budget noFail
    (ResultCache.mk [] [] 1000 : ResultCache Nat) [] "w"
    (OptionsObj.mk none "html" []) "k" 0
    (fun i _ => if i ≤ 1 then Except.error "e" else Except.ok 5) 2 1 5
    (fun _ => "e") rfl
    (fun i o hi => by simp [hi])
    (fun i o hi => by simp [show ¬ i ≤ 1 by omega])).1 (by omega)
  exact h

/-- C4: for every key, a `get` performed after `set` while less than
`cacheDuration` milliseconds have elapsed returns the stored result
unchanged; once at least `cacheDuration` milliseconds have elapsed, `get`
returns `none` and the expired entry is evicted from both the in-memory map
and the on-disk cache files. -/
theorem resultCache_get_set {α : Type} (s : ResultCache α) (key : String)
    (r : α) (t0 d : Int) (h0 : 0 ≤ d) :
    (d < s.cacheDuration →
      ResultCache.get noFail (ResultCache.set noFail s key t0 r) key (t0 + d) =
        Except.ok (some r, ResultCache.set noFail s key t0 r)) ∧
    (s.cacheDuration ≤ d →
      ∃ s2, ResultCache.get noFail (ResultCache.set noFail s key t0 r) key
          (t0 + d) = Except.ok (none, s2) ∧
        alookup s2.cache key = none ∧ alookup s2.cacheDir key = none) :=
  ⟨fun hd => get_after_set_fresh s key r t0 d h0 hd,
   fun hd => get_after_set_expired s key r t0 d hd⟩

theorem resultCache_get_set_witness :
    (ResultCache.get noFail
        (ResultCache.set noFail (ResultCache.mk [] [] 10 : ResultCache Nat)
          "k" 5 7) "k" (5 + 2) =
      Except.ok (some 7,
        ResultCache.set noFail (ResultCache.mk [] [] 10 : ResultCache Nat)
          "k" 5 7)) ∧
    (∃ s2, ResultCache.get noFail
        (ResultCache.set noFail (ResultCache.mk [] [] 10 : ResultCache Nat)
          "k" 5 7) "k" (5 + 1000) = Except.ok (none, s2) ∧
      alookup s2.cache "k" = none ∧ alookup s2.cacheDir "k" = none) :=
  ⟨(resultCache_get_set (ResultCache.mk [] [] 10 : ResultCache Nat) "k" 7 5 2
      (by norm_num)).1 (by norm_num),
   (resultCache_get_set (ResultCache.mk [] [] 10 : ResultCache Nat) "k" 7 5
      1000 (by norm_num)).2 (by norm_num)⟩

/-- C5 (counterexample): a storage error inside `ResultCache.has` is NOT
absorbed.  With an expired in-memory entry whose cache file is present and
an `unlinkSync` that fails, `has` raises (the `unlinkSync` call sits outside
any try/catch), and the enclosing `testWebsite` job propagates the
exception instead of proceeding as on a miss. -/
theorem cache_unlink_error_cex :
    ResultCache.has (FsFlags.mk false false true)
        (ResultCache.mk [("k", 0)] [("k", (0, 0))] 10 : ResultCache Nat)
        "k" 100 =
      Except.error ("unlink failed",
        ResultCache.mk [] [("k", (0, 0))] 10) ∧
    (testWebsite (FsFlags.mk false false true)
        (ResultCache.mk [("k", 0)] [("k", (0, 0))] 10 : ResultCache Nat) []
        "w" (OptionsObj.mk none "html" []) "k" 100
        (fun _ _ => Except.ok 0) 2).res = TWOut.thrown := by
  constructor <;> rfl

/-- C5 (amended): storage errors raised while reading the cache file in
`get` or writing it in `set` are absorbed and degrade to a cache miss
(`set` is total by construction, a failing read makes `get` return `none`),
and as long as unlink succeeds no cache error fails the enclosing job; but
an error raised while deleting an expired entry inside `has` (reached
directly and through `get`) propagates and fails the job. -/
theorem cache_error_absorption {α : Type} (fsf : FsFlags)
    (hul : fsf.unlinkFails = false) :
    (∀ (s : ResultCache α) (key : String) (now : Int), ∃ b s1,
        ResultCache.has fsf s key now = Except.ok (b, s1)) ∧
    (∀ (s : ResultCache α) (key : String) (now : Int), ∃ v s1,
        ResultCache.get fsf s key now = Except.ok (v, s1)) ∧
    (fsf.readFails = true →
      ∀ (s : ResultCache α) (key : String) (now : Int), ∃ s1,
        ResultCache.get fsf s key now = Except.ok (none, s1)) ∧
    (∀ (s : ResultCache α) (heap : List SSOpts) (website : String)
        (opts : OptionsObj) (key : String) (now : Int)
        (f : Nat → SSOpts → Except String α) (maxRetries : Nat),
        (testWebsite fsf s heap website opts key now f maxRetries).res ≠
          TWOut.thrown) := by
  refine ⟨fun s key now => has_no_unlink fsf hul s key now,
    fun s key now => get_no_unlink fsf hul s key now,
    fun hrf s key now => get_read_fail fsf hul hrf s key now,
    fun s heap website opts key now f maxRetries =>
      testWebsite_no_thrown fsf hul s heap website opts key now f maxRetries⟩

theorem cache_error_absorption_witness :
    ∃ s1, ResultCache.get (FsFlags.mk true false false)
        (ResultCache.mk [("k", 0)] [("k", (0, (7 : Nat)))] 10) "k" 5 =
      Except.ok (none, s1) := by
  exact (cache_error_absorption (FsFlags.mk true false false) rfl).2.2.1 rfl
    (ResultCache.mk [("k", 0)] [("k", (0, (7 : Nat)))] 10) "k" 5

/-- C6 (counterexample): `testWebsite` does not always produce a
`JobResult` on the cache-hit path: with a fresh in-memory entry whose disk
payload is missing — exactly the state a `set` with a failing write leaves
behind — the cache hit returns `null`, which is neither a success result
nor a `{ url, error }` object. -/
theorem testWebsite_null_result_cex :
    ResultCache.set (FsFlags.mk false true false)
        (ResultCache.mk [] [] 1000 : ResultCache Nat) "k" 100 0 =
      ResultCache.mk [("k", 100)] [] 1000 ∧
    (testWebsite noFail
        (ResultCache.mk [("k", 100)] [] 1000 : ResultCache Nat) [] "w"
        (OptionsObj.mk none "html" []) "k" 100
        (fun _ _ => Except.ok 0) 2).res = TWOut.nullR ∧
    TWOut.isJobResult (TWOut.nullR : TWOut Nat) = false := by
  refine ⟨rfl, rfl, rfl⟩

/-- C6 (amended): entered on a cache miss, `testWebsite` always produces a
`JobResult` — a success result or a `{ url, error }` value — and when the
underlying test fails on every attempt the outcome is the failure carrying
the message of the last observed error after `maxRetries + 1` attempts.  On
the cache-hit path the boundary may instead return `null` (missing or
unreadable payload), and a failing unlink inside the cache check may
propagate an exception. -/
theorem testWebsite_boundary {α : Type} (fsf : FsFlags)
    (cache : ResultCache α) (heap : List SSOpts) (website : String)
    (opts : OptionsObj) (key : String) (now : Int)
    (f : Nat → SSOpts → Except String α) (maxRetries : Nat)
    (errOf : Nat → String)
    (hmiss : alookup cache.cache key = none) :
    ((∃ r, (testWebsite fsf cache heap website opts key now f maxRetries).res =
        TWOut.success r) ∨
     (∃ m, (testWebsite fsf cache heap website opts key now f maxRetries).res =
        TWOut.failure website m)) ∧
    ((∀ i o, i ≤ maxRetries + 1 → f i o = Except.error (errOf i)) →
      (testWebsite fsf cache heap website opts key now f maxRetries).res =
          TWOut.failure website (errOf (maxRetries + 1)) ∧
      (testWebsite fsf cache heap website opts key now f maxRetries).attempts =
          maxRetries + 1) := by
  rw [testWebsite_miss fsf cache heap website opts key now f maxRetries hmiss]
  constructor
  · exact twLoop_total fsf website key now f maxRetries 0
      (heap ++ [enhanceCell heap opts]) heap.length cache
  · intro hfail
    have h := twLoop_exhaust fsf website key now f errOf maxRetries 0
      (heap ++ [enhanceCell heap opts]) heap.length cache
      (fun i o hi => hfail i o (by omega))
    have he : 0 + maxRetries + 1 = maxRetries + 1 := by omega
    rw [he] at h
    exact h

theorem testWebsite_boundary_witness :
    (testWebsite noFail (ResultCache.mk [] [] 1000 : ResultCache Nat) [] "w"
        (OptionsObj.mk none "html" []) "k" 0
        (fun _ _ => Except.error "boom") 1).res =
      TWOut.failure "w" "boom" ∧
    (testWebsite noFail (ResultCache.mk [] [] 1000 : ResultCache Nat) [] "w"
        (OptionsObj.mk none "html" []) "k" 0
        (fun _ _ => Except.error "boom") 1).attempts = 2 := by
  have h := (testWebsite_boundary noFail
    (ResultCache.mk [] [] 1000 : ResultCache Nat) [] "w"
    (OptionsObj.mk none "html" []) "k" 0
    (fun _ _ => Except.error "boom") 1 (fun _ => "boom") rfl).2
    (fun i o hi => rfl)
  exact h

/-- C7: `generateKey` is deterministic and makes equal jobs fungible: it is
a pure function of the target and the options serialisation — two calls
with the same url and options value yield the same digest for every
stringify/digest pair — and a second job with the identical key addresses
(hits) the cache entry stored by the first within the cache window. -/
theorem generateKey_deterministic {α : Type}
    (stringify : String → String → String) (md5hex : String → String)
    (u1 o1 u2 o2 : String) (hu : u1 = u2) (ho : o1 = o2)
    (s : ResultCache α) (r : α) (t0 d : Int) (h0 : 0 ≤ d)
    (hd : d < s.cacheDuration) :
    generateKey stringify md5hex u1 o1 = generateKey stringify md5hex u2 o2 ∧
    ResultCache.get noFail
        (ResultCache.set noFail s (generateKey stringify md5hex u1 o1) t0 r)
        (generateKey stringify md5hex u2 o2) (t0 + d) =
      Except.ok (some r,
        ResultCache.set noFail s (generateKey stringify md5hex u1 o1) t0 r) := by
  subst hu
  subst ho
  exact ⟨rfl, get_after_set_fresh s _ r t0 d h0 hd⟩

theorem generateKey_deterministic_witness :
    generateKey (fun u o => u ++ "|" ++ o) (fun x => x) "https://a" "opts" =
      generateKey (fun u o => u ++ "|" ++ o) (fun x => x) "https://a" "opts" ∧
    ResultCache.get noFail
        (ResultCache.set noFail (ResultCache.mk [] [] 10 : ResultCache Nat)
          (generateKey (fun u o => u ++ "|" ++ o) (fun x => x) "https://a"
            "opts") 0 7)
        (generateKey (fun u o => u ++ "|" ++ o) (fun x => x) "https://a"
          "opts") (0 + 3) =
      Except.ok (some 7,
        ResultCache.set noFail (ResultCache.mk [] [] 10 : ResultCache Nat)
          (generateKey (fun u o => u ++ "|" ++ o) (fun x => x) "https://a"
            "opts") 0 7) :=
  generateKey_deterministic (fun u o => u ++ "|" ++ o) (fun x => x)
    "https://a" "opts" "https://a" "opts" rfl rfl
    (ResultCache.mk [] [] 10 : ResultCache Nat) 7 0 3 (by norm_num)
    (by norm_num)

/-- C8: each category average is the arithmetic mean over successful
results only: the summary attaches `averageScores` as soon as one result
has scores, the value recorded for a category carried by some successful
result is exactly the spec-side mean over the successful results carrying
it (failed targets and results lacking the category contribute nothing,
rather than counting as zero), while `failedTests` counts the failed
targets and `totalWebsites` all of them. -/
theorem summary_average_mean (rs : List BatchEntry) (c : String)
    (hc : specContributions c rs ≠ []) :
    (generateSummaryReport rs).averageScores = some (averageScores rs) ∧
    alookup (averageScores rs) c = some (specCategoryMean c rs) ∧
    (generateSummaryReport rs).failedTests =
      rs.countP (fun r => r.hasErr) ∧
    (generateSummaryReport rs).totalWebsites = rs.length := by
  obtain ⟨hmem, hpos⟩ := mem_categoriesOf rs c hc
  refine ⟨?_, ?_, ?_, rfl⟩
  · simp [generateSummaryReport, if_pos hpos]
  · rw [averageScores, alookup_map_pair (avgVal rs) _ c hmem,
      avgVal_eq_specMean rs c hc]
  · simp [generateSummaryReport, List.countP_eq_length_filter]

/-- The three-target example batch: two successes with performance 80 and
100, one failure. -/
def exBatch : List BatchEntry :=
  [BatchEntry.ok "a" [("performance", 80)],
   BatchEntry.ok "b" [("performance", 100)],
   BatchEntry.err "c" "boom"]

theorem summary_average_mean_witness :
    alookup (averageScores exBatch) "performance" = some (90 : Rat) ∧
    (generateSummaryReport exBatch).failedTests = 1 ∧
    (generateSummaryReport exBatch).totalWebsites = 3 := by
  have h := summary_average_mean exBatch "performance" (by decide)
  have hcontrib : specContributions "performance" exBatch =
      [(80 : Rat), 100] := rfl
  refine ⟨?_, ?_, ?_⟩
  · rw [h.2.1]
    have hm : specCategoryMean "performance" exBatch = 90 := by
      unfold specCategoryMean
      rw [hcontrib]
      norm_num
    rw [hm]
  · rw [h.2.2.1]
    decide
  · rw [h.2.2.2]
    rfl

/-- C9: policy relaxation on retry is scoped to the single job and
monotonic: `testWebsite` writes only the freshly allocated enhanced
`screenshotOptions` object, so every pre-existing heap cell — in particular
the `screenshotOptions` object the caller shares — is unchanged after the
call, and across the retries of one job the per-attempt `waitUntil`
condition only moves from stricter (`domcontentloaded`) to looser (`load`),
never back. -/
theorem options_mutation_scoped_monotonic {α : Type} (fsf : FsFlags)
    (cache : ResultCache α) (heap : List SSOpts) (website : String)
    (opts : OptionsObj) (key : String) (now : Int)
    (f : Nat → SSOpts → Except String α) (maxRetries : Nat) (a : Nat)
    (ha : a < heap.length) :
    ((testWebsite fsf cache heap website opts key now f maxRetries).heap)[a]? =
      heap[a]? ∧
    List.Chain' (fun u v => WaitCond.loose u ≤ WaitCond.loose v)
      ((testWebsite fsf cache heap website opts key now f maxRetries).waitTrace) := by
  unfold testWebsite
  cases hh : ResultCache.has fsf cache key now with
  | error e =>
    dsimp only
    exact ⟨rfl, List.chain'_nil⟩
  | ok p =>
    obtain ⟨b, s1⟩ := p
    cases b
    · dsimp only
      constructor
      · rw [twLoop_heap_frame fsf website key now f maxRetries 0
          (heap ++ [enhanceCell heap opts]) heap.length s1 a (by omega)]
        exact List.getElem?_append_left ha
      · exact (twLoop_trace_mono fsf website key now f maxRetries 0
          (heap ++ [enhanceCell heap opts]) heap.length s1).1
    · dsimp only
      cases hg : ResultCache.get fsf s1 key now with
      | error e =>
        dsimp only
        exact ⟨rfl, List.chain'_nil⟩
      | ok q =>
        obtain ⟨v, s2⟩ := q
        cases v <;> dsimp only <;> exact ⟨rfl, List.chain'_nil⟩

theorem options_mutation_scoped_monotonic_witness :
    ((testWebsite noFail (ResultCache.mk [] [] 1000 : ResultCache Nat)
        [emptySS] "w" (OptionsObj.mk (some 0) "html" []) "k" 0
        (fun _ _ => Except.error "boom") 2).heap)[0]? = [emptySS][0]? ∧
    List.Chain' (fun u v => WaitCond.loose u ≤ WaitCond.loose v)
      ((testWebsite noFail (ResultCache.mk [] [] 1000 : ResultCache Nat)
        [emptySS] "w" (OptionsObj.mk (some 0) "html" []) "k" 0
        (fun _ _ => Except.error "boom") 2).waitTrace) :=
  options_mutation_scoped_monotonic noFail
    (ResultCache.mk [] [] 1000 : ResultCache Nat) [emptySS] "w"
    (OptionsObj.mk (some 0) "html" []) "k" 0
    (fun _ _ => Except.error "boom") 2 0 (by norm_num)

/-- C10: `loadConfig` is total over arbitrary config paths: whenever the
file read or the JSON parse fails, it returns `{ websites: [] }` instead of
raising, and the batch entry point then dispatches no job. -/
theorem loadConfig_total_default (readResult : Except String String)
    (parseJson : String → Except String SiteConfig)
    (hbad : (∃ e, readResult = Except.error e) ∨
      (∃ s e, readResult = Except.ok s ∧ parseJson s = Except.error e)) :
    loadConfig readResult parseJson =
      SiteConfig.mk (some []) none ∧
    batchDispatch (loadConfig readResult parseJson) = none := by
  rcases hbad with ⟨e, he⟩ | ⟨s, e, hs, hp⟩
  · subst he
    exact ⟨rfl, rfl⟩
  · subst hs
    simp only [loadConfig, hp]
    exact ⟨trivial, rfl⟩

theorem loadConfig_total_default_witness :
    loadConfig (Except.error "ENOENT")
        (fun _ => Except.error "not reached") = SiteConfig.mk (some []) none ∧
    batchDispatch (loadConfig (Except.error "ENOENT")
        (fun _ => Except.error "not reached")) = none :=
  loadConfig_total_default (Except.error "ENOENT")
    (fun _ => Except.error "not reached") (Or.inl ⟨"ENOENT", rfl⟩)

end PLTest
